import Mathlib

/-!
# Verification of the poker-bot game engine

A shallow embedding of the poker engine from the `poker-bot` repository
(packages `models`, `game`, `modes`, `irc`), together with theorems settling
the specification claims about chip conservation, the bet contract, showdown
payout, round-over detection, deck generation, all-in handling, the hand
evaluator, turn advance, and the draw phase.

Go `int` is modelled as `Int`, Go slices as `List`, Go `map` iteration as an
explicit iteration-order parameter (a permutation of the key set), Go errors
as an inductive error type, and Go's in-place mutation with early `return err`
as functions returning the (possibly unchanged) state paired with an optional
error.
-/

namespace PokerBot

/-- `models.Card` (src/unnamed/part_000): suit and value are Go strings. -/
structure Card where
  suit : String
  value : String
deriving DecidableEq, Repr

instance : Inhabited Card := ⟨⟨"", ""⟩⟩

/-- `models.Player` (src/unnamed/part_000).  `money` is the stack, `bet` the
current street bet.  The identity and statistics fields are kept for fidelity
but play no role in the engine logic. -/
structure Player where
  nick : String
  money : Int
  handsWon : Int
  hand : List Card
  bet : Int
  folded : Bool
deriving DecidableEq, Repr

/-- `game.BaseGame` (src/game/game.go).  The string `Type` field and
`InProgress`/`Channel` are dropped: no claim mentions them and they never
influence the engine operations embedded here. -/
structure BaseGame where
  players : List Player
  deck : List Card
  river : List Card
  pot : Int
  currentBet : Int
  turn : Nat
deriving DecidableEq, Repr

/-- The error values returned by the betting actions.  The Go code returns
`errors.New` with a fixed message; each constructor names one message:
`insufficientFunds` = "not enough money", `belowCurrentBet` = "bet must be at
least the current bet", `mustActOnBet` = "cannot check, must call or raise".
`noSuchPlayer` models the Go precondition that the `*models.Player` argument
is one of the seated players (a pointer, so never absent in Go). -/
inductive GameError where
  | insufficientFunds
  | belowCurrentBet
  | mustActOnBet
  | noSuchPlayer
deriving DecidableEq, Repr

/-- `BaseGame.Bet` (src/game/game.go:76-90).  `Holdem.Bet`
(src/modes/omaha.go:179-193), `Omaha.Bet` (src/unnamed/part_001) and
`FiveCardDraw.Bet` (src/modes/five_card_draw.go:70-84) repeat this body
verbatim, so one embedding covers all of them.  The player is addressed by
seat index; an early Go `return err` leaves the receiver untouched, hence the
pair `(state, error?)`. -/
def bet (g : BaseGame) (i : Nat) (amount : Int) : BaseGame × Option GameError :=
  match g.players[i]? with
  | none => (g, some .noSuchPlayer)
  | some p =>
    if amount > p.money then (g, some .insufficientFunds)
    else if amount < g.currentBet - p.bet then (g, some .belowCurrentBet)
    else
      let p' : Player := { p with money := p.money - amount, bet := p.bet + amount }
      let g' : BaseGame := { g with players := g.players.set i p', pot := g.pot + amount }
      (if p'.bet > g'.currentBet then { g' with currentBet := p'.bet } else g', none)

/-- `BaseGame.Call` (src/game/game.go:92-95): `Bet` with
`currentBet - player.Bet`. -/
def call (g : BaseGame) (i : Nat) : BaseGame × Option GameError :=
  match g.players[i]? with
  | none => (g, some .noSuchPlayer)
  | some p => bet g i (g.currentBet - p.bet)

/-- `BaseGame.Raise` (src/game/game.go:97-100): `Bet` with
`currentBet - player.Bet + amount`. -/
def raise (g : BaseGame) (i : Nat) (amount : Int) : BaseGame × Option GameError :=
  match g.players[i]? with
  | none => (g, some .noSuchPlayer)
  | some p => bet g i (g.currentBet - p.bet + amount)

/-- `BaseGame.Check` (src/game/game.go:102-107): rejected while owing a call,
otherwise no state change. -/
def check (g : BaseGame) (i : Nat) : BaseGame × Option GameError :=
  match g.players[i]? with
  | none => (g, some .noSuchPlayer)
  | some p => if p.bet < g.currentBet then (g, some .mustActOnBet) else (g, none)

/-- `BaseGame.Fold` (src/game/game.go:109-111): marks the player folded. -/
def fold (g : BaseGame) (i : Nat) : BaseGame :=
  match g.players[i]? with
  | none => g
  | some p => { g with players := g.players.set i { p with folded := true } }

/-- `game.GenerateDeck` (src/game/game.go:165-177): the 52 cards in the fixed
suit-major, value-minor order of the two nested loops.  No shuffling happens
here or anywhere else in the repository. -/
def generateDeck : List Card :=
  (["Hearts", "Diamonds", "Clubs", "Spades"].map (fun suit =>
    (["2", "3", "4", "5", "6", "7", "8", "9", "10", "J", "Q", "K", "A"].map
      (fun value => Card.mk suit value)))).flatten

/-- `BaseGame.ResetRound` (src/game/game.go:153-163): clears per-round player
fields, zeroes pot and current bet, empties the river member and installs a
freshly generated (unshuffled) deck. -/
def resetRound (g : BaseGame) : BaseGame :=
  { g with
    players := g.players.map (fun p => { p with bet := 0, folded := false, hand := [] }),
    pot := 0, currentBet := 0, river := [], deck := generateDeck }

/-- `FiveCardDraw.collectAnte` (src/modes/five_card_draw.go:39-45): every
seated player pays the ante into the pot (no funds test — the stack may go
negative in the source) and the turn moves to seat 0. -/
def collectAnte (ante : Int) (g : BaseGame) : BaseGame :=
  { g with
    players := g.players.map (fun p => { p with money := p.money - ante }),
    pot := g.pot + ante * g.players.length, turn := 0 }

/-- One caller-issued betting action, addressed by seat index. -/
inductive Action where
  | bet (i : Nat) (amount : Int)
  | call (i : Nat)
  | raise (i : Nat) (amount : Int)
  | check (i : Nat)
  | fold (i : Nat)
deriving DecidableEq, Repr

/-- Applying an action the way the IRC handler does: a rejected action leaves
the game state exactly as it was (the error is surfaced to the player and
nothing else happens). -/
def applyAction (g : BaseGame) : Action → BaseGame
  | .bet i amount => (bet g i amount).1
  | .call i => (call g i).1
  | .raise i amount => (raise g i amount).1
  | .check i => (check g i).1
  | .fold i => fold g i

/-- A whole sequence of actions, left to right. -/
def applyActions (g : BaseGame) : List Action → BaseGame
  | [] => g
  | a :: rest => applyActions (applyAction g a) rest

/-- Sum of all players' stacks. -/
def stackSum (g : BaseGame) : Int := (g.players.map (fun p => p.money)).sum

/-- The conserved quantity: pot plus all stacks. -/
def chipSum (g : BaseGame) : Int := g.pot + stackSum g

/-! ## Hand evaluator (src/modes/omaha.go:274-526)

Go's `sort.Ints` / `sort.Sort(sort.Reverse(...))` on `[]int` is modelled by an
insertion sort: on integer lists every correct sort produces the same list
(equal elements are indistinguishable), so the model is extensionally the
source's sort.  Go's `map[int]int` built by `countValues` is modelled by the
count function `countOf` together with an explicit iteration order: a list of
the distinct card values in the order the `range` loop happens to visit them.
Functions that iterate the map take that order as a parameter, since Go's map
iteration order is unspecified. -/

/-- Decimal reading of a digit string, modelling `fmt.Sscanf(s, "%d")` on the
card values "2".."10" (on a string with no digits the scanned variable stays
at its zero value). -/
def parseDecimal (s : String) : Nat :=
  s.toList.foldl (fun acc ch => if ch.isDigit then acc * 10 + (ch.toNat - 48) else acc) 0

/-- `cardValue` (src/modes/omaha.go:511-526). -/
def cardValue (c : Card) : Int :=
  match c.value with
  | "A" => 14
  | "K" => 13
  | "Q" => 12
  | "J" => 11
  | v => (parseDecimal v : Nat)

/-- `getValues` (src/modes/omaha.go:467-473). -/
def getValues (cards : List Card) : List Int := cards.map cardValue

/-- Insertion of one element into a sorted list, for the sort model. -/
def insertSorted (a : Int) : List Int → List Int
  | [] => [a]
  | b :: bs => if a ≤ b then a :: b :: bs else b :: insertSorted a bs

/-- Ascending sort, modelling `sort.Ints`. -/
def sortInts (l : List Int) : List Int := l.foldr insertSorted []

/-- Descending sort, modelling `sort.Sort(sort.Reverse(sort.IntSlice(...)))`. -/
def sortIntsDesc (l : List Int) : List Int := (sortInts l).reverse

/-- `removeDuplicates` (src/modes/omaha.go:475-485): keeps the first
occurrence of each value, in input order (`seen[value]` holds exactly the
values already in `result`). -/
def removeDuplicates (values : List Int) : List Int :=
  values.foldl (fun result v => if v ∈ result then result else result ++ [v]) []

/-- `containsValue` (src/modes/omaha.go:487-494). -/
def containsValue (values : List Int) (target : Int) : Bool := values.contains target

/-- `filterBySuit` (src/modes/omaha.go:448-456). -/
def filterBySuit (cards : List Card) (suit : String) : List Card :=
  cards.filter (fun c => c.suit == suit)

/-- The lookup `countValues(cards)[v]` (src/modes/omaha.go:458-465). -/
def countOf (cards : List Card) (v : Int) : Nat :=
  (cards.filter (fun c => cardValue c == v)).length

/-- The key set of `countValues(cards)` in first-occurrence order: one
admissible iteration order of the Go map (any permutation of this list is
admissible). -/
def distinctValues (cards : List Card) : List Int := removeDuplicates (getValues cards)

/-- `getKickers` (src/modes/omaha.go:496-509): card values outside
`excludeValues`, descending, truncated to `count`. -/
def getKickers (cards : List Card) (excludeValues : List Int) (count : Nat) : List Int :=
  (sortIntsDesc ((getValues cards).filter (fun v => !containsValue excludeValues v))).take count

/-- The fixed suit iteration order used by `isStraightFlush` and `isFlush`. -/
def suitOrder : List String := ["Hearts", "Diamonds", "Clubs", "Spades"]

/-- `isStraight` (src/modes/omaha.go:375-393): sort ascending, drop
duplicates, look for the highest window of five consecutive values (index `i`
from the top down, testing `values[i]-values[i-4] == 4`), then the wheel
`A-2-3-4-5` reported as a 5-high straight. -/
def isStraight (cards : List Card) : Bool × List Int :=
  let values := removeDuplicates (sortInts (getValues cards))
  let n := values.length
  match (((List.range n).filter (fun i => 4 ≤ i)).reverse).find?
      (fun i => values.getD i 0 - values.getD (i - 4) 0 == 4) with
  | some i => (true, [values.getD i 0])
  | none =>
    if containsValue values 14 && containsValue values 2 && containsValue values 3
        && containsValue values 4 && containsValue values 5 then
      (true, [5])
    else (false, [])

/-- `isStraightFlush` (src/modes/omaha.go:326-334): first suit (in the fixed
suit order) whose cards contain a straight. -/
def isStraightFlush (cards : List Card) : Bool × List Int :=
  match suitOrder.findSome? (fun suit =>
      let r := isStraight (filterBySuit cards suit)
      if r.1 then some r.2 else none) with
  | some values => (true, values)
  | none => (false, [])

/-- `isRoyalFlush` (src/modes/omaha.go:319-324): a straight flush whose
reported high card is the Ace. -/
def isRoyalFlush (cards : List Card) : Bool × List Int :=
  let r := isStraightFlush cards
  if r.1 && (r.2.getD 0 0 == 14) then (true, r.2) else (false, [])

/-- `isFourOfAKind` (src/modes/omaha.go:336-345): the first map key in
iteration order with count ≥ 4, plus one kicker. -/
def isFourOfAKind (order : List Int) (cards : List Card) : Bool × List Int :=
  match order.find? (fun v => 4 ≤ countOf cards v) with
  | some v => (true, v :: getKickers cards [v] 1)
  | none => (false, [])

/-- `isFullHouse` (src/modes/omaha.go:347-361): one pass over the map in
iteration order; a key with count ≥ 3 beating the current trips goes to the
trips slot, otherwise a key with count ≥ 2 beating the current pair goes to
the pair slot.  (A second three-of-a-kind encountered after the first one
steals the trips slot and never lands in the pair slot — the source of the
iteration-order dependence.) -/
def isFullHouse (order : List Int) (cards : List Card) : Bool × List Int :=
  let tp := order.foldl (fun (tp : Int × Int) v =>
      if 3 ≤ countOf cards v ∧ tp.1 < v then (v, tp.2)
      else if 2 ≤ countOf cards v ∧ tp.2 < v then (tp.1, v)
      else tp) (0, 0)
  if 0 < tp.1 ∧ 0 < tp.2 then (true, [tp.1, tp.2]) else (false, [])

/-- `isFlush` (src/modes/omaha.go:363-373): first suit with at least five
cards, reporting its five highest values. -/
def isFlush (cards : List Card) : Bool × List Int :=
  match suitOrder.find? (fun suit => 5 ≤ (filterBySuit cards suit).length) with
  | some suit => (true, (sortIntsDesc (getValues (filterBySuit cards suit))).take 5)
  | none => (false, [])

/-- `isThreeOfAKind` (src/modes/omaha.go:395-404): the first map key in
iteration order with count ≥ 3, plus two kickers. -/
def isThreeOfAKind (order : List Int) (cards : List Card) : Bool × List Int :=
  match order.find? (fun v => 3 ≤ countOf cards v) with
  | some v => (true, v :: getKickers cards [v] 2)
  | none => (false, [])

/-- `isTwoPair` (src/modes/omaha.go:406-420): all keys with count ≥ 2, sorted
descending, top two plus one kicker. -/
def isTwoPair (order : List Int) (cards : List Card) : Bool × List Int :=
  let pairs := order.filter (fun v => 2 ≤ countOf cards v)
  if 2 ≤ pairs.length then
    let top2 := (sortIntsDesc pairs).take 2
    (true, top2 ++ getKickers cards top2 1)
  else (false, [])

/-- `isPair` (src/modes/omaha.go:422-431): the first map key in iteration
order with count ≥ 2, plus three kickers. -/
def isPair (order : List Int) (cards : List Card) : Bool × List Int :=
  match order.find? (fun v => 2 ≤ countOf cards v) with
  | some v => (true, v :: getKickers cards [v] 3)
  | none => (false, [])

/-- `isHighCard` (src/modes/omaha.go:433-439): always succeeds with the
`min 5 n` highest values. -/
def isHighCard (cards : List Card) : Bool × List Int :=
  (true, (sortIntsDesc (getValues cards)).take (min 5 (getValues cards).length))

/-- `Hand` (src/modes/omaha.go:274-277): category (0 = high card … 9 = royal
flush) and tiebreak values, most significant first. -/
structure Hand where
  category : Int
  values : List Int
deriving DecidableEq, Repr

/-- The value-list walk of `Hand.beats` (src/modes/omaha.go:283-288): first
differing position decides.  Go indexes `other.values` by positions of
`h.values`; a longer `h.values` would panic in Go — hands produced by
`getBestHand` from at least five cards have equal-length value lists within a
category, so that branch (here `false`) is never taken by the engine. -/
def beatsValues : List Int → List Int → Bool
  | [], _ => false
  | _ :: _, [] => false
  | a :: as, b :: bs => if a ≠ b then b < a else beatsValues as bs

/-- `Hand.beats` (src/modes/omaha.go:279-289). -/
def beats (h other : Hand) : Bool :=
  if h.category ≠ other.category then other.category < h.category
  else beatsValues h.values other.values

/-- `getBestHand` (src/modes/omaha.go:296-317): the ten category tests in
order, category `9 - index`; `none` models the `panic("No valid hand found")`
fall-through (provably unreachable, `isHighCard` always succeeds).  `order`
is the iteration order of the `countValues` map shared by the map-reading
tests. -/
def getBestHand (order : List Int) (cards : List Card) : Option Hand :=
  let r0 := isRoyalFlush cards
  if r0.1 then some ⟨9, r0.2⟩ else
  let r1 := isStraightFlush cards
  if r1.1 then some ⟨8, r1.2⟩ else
  let r2 := isFourOfAKind order cards
  if r2.1 then some ⟨7, r2.2⟩ else
  let r3 := isFullHouse order cards
  if r3.1 then some ⟨6, r3.2⟩ else
  let r4 := isFlush cards
  if r4.1 then some ⟨5, r4.2⟩ else
  let r5 := isStraight cards
  if r5.1 then some ⟨4, r5.2⟩ else
  let r6 := isThreeOfAKind order cards
  if r6.1 then some ⟨3, r6.2⟩ else
  let r7 := isTwoPair order cards
  if r7.1 then some ⟨2, r7.2⟩ else
  let r8 := isPair order cards
  if r8.1 then some ⟨1, r8.2⟩ else
  let r9 := isHighCard cards
  if r9.1 then some ⟨0, r9.2⟩ else none

instance : Inhabited Player := ⟨⟨"", 0, 0, [], 0, false⟩⟩

/-- `Holdem.EvaluateHands` (src/modes/omaha.go:153-177), returning the seat
index of the winner (`*models.Player` in Go).  Folded players and players
with empty hands are skipped; a later hand replaces the current best only
when it strictly `beats` it, so among exact ties the first seat in list
order is kept.  `(getBestHand ...).getD ⟨0, []⟩` discharges the `Option`
introduced for the panic branch, which `getBestHand_total` proves dead. -/
def evaluateHands (order : List Int) (players : List Player) (river : List Card) :
    Option Nat :=
  (players.enum.foldl (fun (acc : Option (Nat × Hand)) ip =>
    if ip.2.folded then acc
    else if ip.2.hand.length = 0 then acc
    else
      let playerHand := (getBestHand order (ip.2.hand ++ river)).getD ⟨0, []⟩
      match acc with
      | none => some (ip.1, playerHand)
      | some best => if beats playerHand best.2 then some (ip.1, playerHand) else acc)
    none).map (fun best => best.1)

/-- `Handler.endRound` (src/irc/handler.go:715-738), restricted to the money
movement: the single player returned by `EvaluateHands` receives the entire
pot (`winner.Money += game.GetPot()`); nobody else receives anything, and no
split of any kind happens.  When no winner exists the handler ends the game
and moves no money. -/
def endRoundPayout (order : List Int) (g : BaseGame) : List Player :=
  match evaluateHands order g.players g.river with
  | none => g.players
  | some w =>
    match g.players[w]? with
    | none => g.players
    | some p => g.players.set w { p with money := p.money + g.pot }

/-- The single loop of `Holdem.IsRoundOver` (src/modes/omaha.go:216-227) and
`FiveCardDraw.IsRoundOver` (src/modes/five_card_draw.go:107-118): counts
non-folded players, returning early (modelled by `none`) as soon as a
non-folded player's street bet differs from the current bet. -/
def roundOverScan (currentBet : Int) : List Player → Nat → Option Nat
  | [], active => some active
  | p :: ps, active =>
    if p.folded then roundOverScan currentBet ps active
    else if p.bet ≠ currentBet then none
    else roundOverScan currentBet ps (active + 1)

/-- `Holdem.IsRoundOver` (src/modes/omaha.go:216-227): the early return gives
`false`; otherwise `activePlayers <= 1 || h.stage == 3`. -/
def isRoundOverHoldem (players : List Player) (currentBet : Int) (stage : Int) : Bool :=
  match roundOverScan currentBet players 0 with
  | none => false
  | some active => decide (active ≤ 1) || (stage == 3)

/-- `FiveCardDraw.IsRoundOver` (src/modes/five_card_draw.go:107-118):
identical loop, final street condition `f.drawPhase`. -/
def isRoundOverFiveCardDraw (players : List Player) (currentBet : Int)
    (drawPhase : Bool) : Bool :=
  match roundOverScan currentBet players 0 with
  | none => false
  | some active => decide (active ≤ 1) || drawPhase

/-- The `for g.Players[g.Turn].Folded` loop of `BaseGame.NextTurn`
(src/game/game.go:69-74), bounded by `fuel` steps: `some t` when the loop
exits at seat `t`, `none` when `fuel` consecutive seats are all folded (with
`fuel` = seat count that is every seat, and the Go loop never exits). -/
def nextTurnScan (players : List Player) (t : Nat) : Nat → Option Nat
  | 0 => none
  | fuel + 1 =>
    match players[t]? with
    | none => none
    | some p => if p.folded then nextTurnScan players ((t + 1) % players.length) fuel
                else some t

/-- `BaseGame.NextTurn` (src/game/game.go:69-74): advance one seat modulo the
seat count, then scan for a non-folded seat.  An empty seat list makes Go
panic on `% 0` (modelled `none`); a scan exhausting all seats means the Go
loop runs forever (modelled `none`). -/
def nextTurn (g : BaseGame) : Option Nat :=
  if g.players.length = 0 then none
  else nextTurnScan g.players ((g.turn + 1) % g.players.length) g.players.length

/-- One iteration of the index loop of `FiveCardDraw.DrawCards`
(src/modes/five_card_draw.go:124-136) on a (hand, deck) pair: an in-range
index appends the discarded card to the back of the deck, overwrites the hand
slot with the front card of the extended deck, and drops that front card;
any other index does nothing. -/
def drawStep (st : List Card × List Card) (index : Int) : List Card × List Card :=
  if 0 ≤ index ∧ index < st.1.length then
    let deck1 := st.2 ++ [st.1.getD index.toNat default]
    (st.1.set index.toNat (deck1.getD 0 default), deck1.drop 1)
  else st

/-- `FiveCardDraw.DrawCards` (src/modes/five_card_draw.go:124-136): a no-op
outside the draw phase, otherwise the index loop over the request. -/
def drawCards (drawPhase : Bool) (hand deck : List Card) (indices : List Int) :
    List Card × List Card :=
  if drawPhase = false then (hand, deck)
  else indices.foldl drawStep (hand, deck)

section Conservation

lemma map_sum_set (l : List Player) (i : Nat) (p p' : Player) (f : Player → Int)
    (h : l[i]? = some p) :
    ((l.set i p').map f).sum = (l.map f).sum - f p + f p' := by
  induction l generalizing i with
  | nil => simp at h
  | cons q l ih =>
    cases i with
    | zero =>
      simp only [List.getElem?_cons_zero, Option.some.injEq] at h
      subst h
      simp [List.set]
      ring
    | succ j =>
      simp only [List.getElem?_cons_succ] at h
      simp only [List.set, List.map_cons, List.sum_cons]
      rw [ih j h]
      ring

lemma chipSum_bet (g : BaseGame) (i : Nat) (amount : Int) :
    chipSum (bet g i amount).1 = chipSum g := by
  unfold bet
  cases h : g.players[i]? with
  | none => rfl
  | some p =>
    simp only
    split
    · rfl
    · split
      · rfl
      · simp only [chipSum, stackSum]
        split <;>
        · simp only
          rw [map_sum_set g.players i p _ _ h]
          ring

lemma chipSum_applyAction (g : BaseGame) (a : Action) :
    chipSum (applyAction g a) = chipSum g := by
  cases a with
  | bet i amount => exact chipSum_bet g i amount
  | call i =>
    simp only [applyAction, call]
    cases h : g.players[i]? with
    | none => rfl
    | some p => exact chipSum_bet g i _
  | raise i amount =>
    simp only [applyAction, raise]
    cases h : g.players[i]? with
    | none => rfl
    | some p => exact chipSum_bet g i _
  | check i =>
    simp only [applyAction, check]
    split
    · rfl
    · split <;> rfl
  | fold i =>
    simp only [applyAction, fold]
    cases h : g.players[i]? with
    | none => rfl
    | some p =>
      simp only [chipSum, stackSum]
      rw [map_sum_set g.players i p _ _ h]
      ring

lemma chipSum_applyActions (g : BaseGame) (acts : List Action) :
    chipSum (applyActions g acts) = chipSum g := by
  induction acts generalizing g with
  | nil => rfl
  | cons a rest ih => rw [applyActions, ih, chipSum_applyAction]

lemma map_sum_sub_ante (ante : Int) (l : List Player) :
    (l.map (fun p => p.money - ante)).sum
      = (l.map (fun p => p.money)).sum - ante * l.length := by
  induction l with
  | nil => simp
  | cons p l ih =>
    simp only [List.map_cons, List.sum_cons, List.length_cons, ih]
    push_cast
    ring

lemma chipSum_collectAnte (ante : Int) (g : BaseGame) :
    chipSum (collectAnte ante g) = chipSum g := by
  simp only [chipSum, collectAnte, stackSum, List.map_map, Function.comp_def]
  rw [map_sum_sub_ante]
  ring

lemma resetRound_pot (g : BaseGame) : (resetRound g).pot = 0 := rfl

lemma resetRound_stackSum (g : BaseGame) : stackSum (resetRound g) = stackSum g := by
  simp only [stackSum, resetRound, List.map_map]
  rfl

end Conservation

/-- **C1** (chip conservation).  Starting from any state, reset the round
(`BaseGame.ResetRound`), collect any ante (`FiveCardDraw.collectAnte`), and
apply an arbitrary sequence of betting actions (`Bet`, `Call`, `Raise`,
`Check`, `Fold` — rejected actions leave the state untouched): the final
`pot + Σ player.stack` equals the sum of all players' stacks at round start
(the pot is zero right after the reset). -/
theorem chip_conservation (g : BaseGame) (ante : Int) (acts : List Action) :
    chipSum (applyActions (collectAnte ante (resetRound g)) acts)
      = stackSum (resetRound g) := by
  rw [chipSum_applyActions, chipSum_collectAnte]
  simp [chipSum, resetRound_pot]

/-- **C2** (bet contract).  For a seated player `p` at seat `i`:
`Bet` fails with `insufficientFunds` when `amount > p.money` (state unchanged);
otherwise fails with `belowCurrentBet` when `amount < currentBet - p.bet`
(state unchanged); otherwise succeeds, moving exactly `amount` from the stack
to the pot, adding `amount` to the player's street bet, raising `currentBet`
to the new street bet exactly when that exceeds it, and touching nothing
else. -/
theorem bet_contract (g : BaseGame) (i : Nat) (amount : Int) (p : Player)
    (hp : g.players[i]? = some p) :
    (p.money < amount → bet g i amount = (g, some GameError.insufficientFunds)) ∧
    (amount ≤ p.money → amount < g.currentBet - p.bet →
      bet g i amount = (g, some GameError.belowCurrentBet)) ∧
    (amount ≤ p.money → g.currentBet - p.bet ≤ amount →
      bet g i amount =
        ({ players := g.players.set i
              { p with money := p.money - amount, bet := p.bet + amount },
           deck := g.deck, river := g.river,
           pot := g.pot + amount,
           currentBet :=
             if g.currentBet < p.bet + amount then p.bet + amount else g.currentBet,
           turn := g.turn }, none)) := by
  simp only [bet, hp]
  refine ⟨fun h => ?_, fun h1 h2 => ?_, fun h1 h2 => ?_⟩
  · rw [if_pos h]
  · rw [if_neg (by omega), if_pos h2]
  · rw [if_neg (by omega), if_neg (by omega)]
    by_cases hc : g.currentBet < p.bet + amount
    · rw [if_pos hc, if_pos hc]
    · rw [if_neg hc, if_neg hc]

/-- Witness for `bet_contract`: a concrete successful bet of 10 from a stack
of 100 with no outstanding current bet. -/
theorem bet_contract_witness :
    bet ⟨[⟨"alice", 100, 0, [], 0, false⟩], [], [], 0, 0, 0⟩ 0 10
      = (⟨[⟨"alice", 90, 0, [], 10, false⟩], [], [], 10, 10, 0⟩, none) := by
  have h := bet_contract ⟨[⟨"alice", 100, 0, [], 0, false⟩], [], [], 0, 0, 0⟩ 0 10
    ⟨"alice", 100, 0, [], 0, false⟩ rfl
  exact (h.2.2 (by decide) (by decide)).trans (by decide)

/-- **C5** (deck at round start).  `ResetRound` always installs the very same
list `GenerateDeck`: the deck is identical on every round start, in the fixed
suit-major order of the generator — there is no shuffling anywhere in the
repository.  The deck does contain the 52 distinct cards exactly once
(length 52 and no duplicates), but its order is never randomized, contrary to
the claim. -/
theorem resetRound_deck_fixed :
    (∀ g : BaseGame, (resetRound g).deck = generateDeck) ∧
    generateDeck.length = 52 ∧ generateDeck.Nodup :=
  ⟨fun _ => rfl, by decide, by decide⟩

/-- **C6** (all-in capping).  A player with stack 50 facing a current bet of
100 has their `Call` rejected outright with the insufficient-funds error and
the state completely unchanged: the engine does not detect the all-in and
does not cap the contribution at the remaining stack. -/
theorem call_allin_rejected :
    call ⟨[⟨"short", 50, 0, [], 0, false⟩], [], [], 115, 100, 0⟩ 0
      = (⟨[⟨"short", 50, 0, [], 0, false⟩], [], [], 115, 100, 0⟩,
         some GameError.insufficientFunds) := rfl

/-- **C8 amended** (evaluator totality).  `getBestHand` never fails: whatever
the map iteration order and the cards — including fewer than five cards —
some `Hand` is returned.  `isHighCard` always succeeds, so neither the
`panic` branch nor any error is reachable; no `InsufficientCards` error
exists anywhere in the code. -/
theorem getBestHand_total (order : List Int) (cards : List Card) :
    (getBestHand order cards).isSome = true := by
  simp only [getBestHand, isHighCard]
  repeat' split
  all_goals simp_all

/-- **C8 counterexample**: called on only four distinct cards, the evaluator
returns a high-card `HandRank` (category 0, the four values descending)
instead of the `InsufficientCards` error the claim requires. -/
theorem getBestHand_four_cards_no_error :
    getBestHand
      (distinctValues
        [⟨"Hearts", "2"⟩, ⟨"Diamonds", "3"⟩, ⟨"Clubs", "4"⟩, ⟨"Spades", "5"⟩])
      [⟨"Hearts", "2"⟩, ⟨"Diamonds", "3"⟩, ⟨"Clubs", "4"⟩, ⟨"Spades", "5"⟩]
      = some ⟨0, [5, 4, 3, 2]⟩ := by decide

/-- **C7** (evaluator determinism fails).  Seven distinct cards holding two
three-of-a-kinds (nines and fives): the orders `[9, 5, 2]` and `[5, 9, 2]`
are both permutations of the value-count map's key set, i.e. both are
iteration orders Go's `range` may produce, yet one evaluates the hand as a
full house (nines over fives) and the other as mere three-of-a-kind fives —
`isFullHouse` lets the second trips steal the trips slot so the pair slot
stays empty.  The evaluator's result depends on map iteration order. -/
theorem getBestHand_order_dependent :
    List.Perm [(9 : Int), 5, 2]
      (distinctValues
        [⟨"Hearts", "9"⟩, ⟨"Diamonds", "9"⟩, ⟨"Clubs", "9"⟩,
         ⟨"Hearts", "5"⟩, ⟨"Diamonds", "5"⟩, ⟨"Clubs", "5"⟩, ⟨"Hearts", "2"⟩]) ∧
    List.Perm [(5 : Int), 9, 2]
      (distinctValues
        [⟨"Hearts", "9"⟩, ⟨"Diamonds", "9"⟩, ⟨"Clubs", "9"⟩,
         ⟨"Hearts", "5"⟩, ⟨"Diamonds", "5"⟩, ⟨"Clubs", "5"⟩, ⟨"Hearts", "2"⟩]) ∧
    getBestHand [9, 5, 2]
      [⟨"Hearts", "9"⟩, ⟨"Diamonds", "9"⟩, ⟨"Clubs", "9"⟩,
       ⟨"Hearts", "5"⟩, ⟨"Diamonds", "5"⟩, ⟨"Clubs", "5"⟩, ⟨"Hearts", "2"⟩]
      = some ⟨6, [9, 5]⟩ ∧
    getBestHand [5, 9, 2]
      [⟨"Hearts", "9"⟩, ⟨"Diamonds", "9"⟩, ⟨"Clubs", "9"⟩,
       ⟨"Hearts", "5"⟩, ⟨"Diamonds", "5"⟩, ⟨"Clubs", "5"⟩, ⟨"Hearts", "2"⟩]
      = some ⟨3, [5, 9, 9]⟩ := by decide

/-- **C3** (showdown ties are not split).  A community royal flush makes both
non-folded players' evaluated hands exactly equal, yet `EvaluateHands` keeps
the first seat and `endRound` hands that single player the entire pot of 100:
the tied second player receives nothing, instead of the even 50/50 split the
claim requires. -/
theorem endRound_tie_pays_first_only :
    getBestHand [2, 3, 10, 11, 12, 13, 14]
      ([⟨"Hearts", "2"⟩, ⟨"Hearts", "3"⟩] ++
        [⟨"Spades", "10"⟩, ⟨"Spades", "J"⟩, ⟨"Spades", "Q"⟩, ⟨"Spades", "K"⟩,
         ⟨"Spades", "A"⟩])
      = getBestHand [2, 3, 10, 11, 12, 13, 14]
        ([⟨"Diamonds", "2"⟩, ⟨"Diamonds", "3"⟩] ++
          [⟨"Spades", "10"⟩, ⟨"Spades", "J"⟩, ⟨"Spades", "Q"⟩, ⟨"Spades", "K"⟩,
           ⟨"Spades", "A"⟩]) ∧
    endRoundPayout [2, 3, 10, 11, 12, 13, 14]
      ⟨[⟨"alice", 1000, 0, [⟨"Hearts", "2"⟩, ⟨"Hearts", "3"⟩], 0, false⟩,
        ⟨"bob", 1000, 0, [⟨"Diamonds", "2"⟩, ⟨"Diamonds", "3"⟩], 0, false⟩],
       [],
       [⟨"Spades", "10"⟩, ⟨"Spades", "J"⟩, ⟨"Spades", "Q"⟩, ⟨"Spades", "K"⟩,
        ⟨"Spades", "A"⟩],
       100, 0, 0⟩
      = [⟨"alice", 1100, 0, [⟨"Hearts", "2"⟩, ⟨"Hearts", "3"⟩], 0, false⟩,
         ⟨"bob", 1000, 0, [⟨"Diamonds", "2"⟩, ⟨"Diamonds", "3"⟩], 0, false⟩] := by
  decide

lemma roundOverScan_eq (cb : Int) (ps : List Player) (acc : Nat) :
    roundOverScan cb ps acc
      = if (ps.filter (fun p => !p.folded)).all (fun p => p.bet == cb)
        then some (acc + (ps.filter (fun p => !p.folded)).length)
        else none := by
  induction ps generalizing acc with
  | nil => simp [roundOverScan]
  | cons p ps ih =>
    by_cases hf : p.folded
    · have hscan : roundOverScan cb (p :: ps) acc = roundOverScan cb ps acc := by
        simp [roundOverScan, hf]
      have hfil : (p :: ps).filter (fun q => !q.folded) = ps.filter (fun q => !q.folded) := by
        simp [List.filter_cons, hf]
      rw [hscan, ih, hfil]
    · have hfil : (p :: ps).filter (fun q => !q.folded)
          = p :: ps.filter (fun q => !q.folded) := by
        simp [List.filter_cons, hf]
      by_cases hb : p.bet = cb
      · have hscan : roundOverScan cb (p :: ps) acc = roundOverScan cb ps (acc + 1) := by
          simp [roundOverScan, hf, hb]
        rw [hscan, ih, hfil]
        simp only [List.all_cons, List.length_cons]
        have hbeq : (p.bet == cb) = true := by simp [hb]
        rw [hbeq]
        simp only [Bool.true_and]
        split
        · congr 1
          omega
        · rfl
      · have hscan : roundOverScan cb (p :: ps) acc = none := by
          simp [roundOverScan, hf, hb]
        have hbeq : (p.bet == cb) = false := by simp [hb]
        rw [hscan, hfil]
        simp [hbeq]

/-- **C4 counterexample**: three seated players, two folded, and the single
remaining player's street bet (0) differs from the current bet (10).  The
claim demands round-over be true regardless of bet equality whenever at most
one non-folded player remains; the code's early `return false` on the unequal
bet makes it false. -/
theorem isRoundOver_lone_player_unequal_bet :
    isRoundOverHoldem
      [⟨"a", 0, 0, [], 5, true⟩, ⟨"b", 0, 0, [], 10, true⟩, ⟨"c", 0, 0, [], 0, false⟩]
      10 0 = false := rfl

/-- **C4 amended** (round-over test).  Both `Holdem.IsRoundOver` and
`FiveCardDraw.IsRoundOver` are true exactly when every non-folded player's
street bet equals the current bet AND (at most one non-folded player remains,
or the final street — `stage == 3` for hold'em, the draw phase flag for five
card draw — has been reached).  The bet-equality conjunct applies even when
at most one non-folded player remains, contrary to the original claim. -/
theorem isRoundOver_characterization (players : List Player) (currentBet : Int)
    (stage : Int) (drawPhase : Bool) :
    (isRoundOverHoldem players currentBet stage
      = (((players.filter (fun p => !p.folded)).all (fun p => p.bet == currentBet))
          && (decide ((players.filter (fun p => !p.folded)).length ≤ 1) || (stage == 3))))
    ∧ (isRoundOverFiveCardDraw players currentBet drawPhase
      = (((players.filter (fun p => !p.folded)).all (fun p => p.bet == currentBet))
          && (decide ((players.filter (fun p => !p.folded)).length ≤ 1) || drawPhase))) := by
  constructor
  · simp only [isRoundOverHoldem, roundOverScan_eq]
    by_cases hall : (players.filter (fun p => !p.folded)).all (fun p => p.bet == currentBet)
    · simp [hall]
    · simp [hall]
  · simp only [isRoundOverFiveCardDraw, roundOverScan_eq]
    by_cases hall : (players.filter (fun p => !p.folded)).all (fun p => p.bet == currentBet)
    · simp [hall]
    · simp [hall]

lemma nextTurnScan_none (players : List Player) (fuel : Nat) :
    ∀ t, t < players.length → nextTurnScan players t fuel = none →
      ∀ k < fuel, (players.getD ((t + k) % players.length) default).folded = true := by
  induction fuel with
  | zero => intro t _ _ k hk; omega
  | succ fuel ih =>
    intro t ht h k hk
    have hget : players[t]? = some (players.getD t default) := by
      rw [List.getElem?_eq_getElem ht, List.getD_eq_getElem _ _ ht]
    rw [nextTurnScan] at h
    simp only [hget] at h
    by_cases hf : (players.getD t default).folded
    · rw [if_pos hf] at h
      have hlen : 0 < players.length := Nat.lt_of_le_of_lt (Nat.zero_le t) ht
      have ht' : (t + 1) % players.length < players.length := Nat.mod_lt _ hlen
      cases k with
      | zero =>
        simpa [Nat.mod_eq_of_lt ht] using hf
      | succ j =>
        have h2 := ih ((t + 1) % players.length) ht' h j (by omega)
        rw [Nat.mod_add_mod] at h2
        have harg : t + (j + 1) = t + 1 + j := by omega
        rw [harg]
        exact h2
    · rw [if_neg hf] at h
      exact absurd h (by simp)

lemma nextTurnScan_some (players : List Player) (fuel : Nat) :
    ∀ t j, t < players.length → nextTurnScan players t fuel = some j →
      ∃ k < fuel, j = (t + k) % players.length ∧
        (players.getD j default).folded = false ∧
        ∀ k' < k, (players.getD ((t + k') % players.length) default).folded = true := by
  induction fuel with
  | zero => intro t j _ h; simp [nextTurnScan] at h
  | succ fuel ih =>
    intro t j ht h
    have hget : players[t]? = some (players.getD t default) := by
      rw [List.getElem?_eq_getElem ht, List.getD_eq_getElem _ _ ht]
    rw [nextTurnScan] at h
    simp only [hget] at h
    by_cases hf : (players.getD t default).folded
    · rw [if_pos hf] at h
      have hlen : 0 < players.length := Nat.lt_of_le_of_lt (Nat.zero_le t) ht
      have ht' : (t + 1) % players.length < players.length := Nat.mod_lt _ hlen
      obtain ⟨k, hk, hj, hnf, hall⟩ := ih _ j ht' h
      refine ⟨k + 1, by omega, ?_, hnf, ?_⟩
      · rw [hj, Nat.mod_add_mod]
        congr 1
        omega
      · intro k' hk'
        cases k' with
        | zero => simpa [Nat.mod_eq_of_lt ht] using hf
        | succ j' =>
          have h2 := hall j' (by omega)
          rw [Nat.mod_add_mod] at h2
          have harg : t + (j' + 1) = t + 1 + j' := by omega
          rw [harg]
          exact h2
    · rw [if_neg hf] at h
      simp only [Option.some.injEq] at h
      refine ⟨0, by omega, ?_, ?_, by omega⟩
      · rw [Nat.add_zero, Nat.mod_eq_of_lt ht]
        omega
      · rw [← h]
        simpa using hf

/-- **C9 counterexample**: with every seated player folded, `NextTurn` does
not complete within a full cycle over the seats — and in fact the Go `for`
loop can never exit, since every seat it can reach is folded (`none` is the
bounded scan of all `len(players)` seats finding no non-folded seat). -/
theorem nextTurn_all_folded_never_completes :
    nextTurn ⟨[⟨"a", 0, 0, [], 0, true⟩, ⟨"b", 0, 0, [], 0, true⟩],
      [], [], 0, 0, 0⟩ = none := rfl

/-- **C9 amended** (turn advance).  Whenever at least one seated player is
non-folded, `NextTurn` completes within `len(players)` loop iterations and
lands on the first non-folded seat after the current turn in wrapping seat
order; with an empty seat list (`% 0` panics in Go) or with every seat folded
(the `for` loop never exits) it does not complete. -/
theorem nextTurn_finds_next_active (g : BaseGame)
    (h : ∃ p ∈ g.players, p.folded = false) :
    ∃ k < g.players.length,
      nextTurn g = some ((g.turn + 1 + k) % g.players.length) ∧
      (g.players.getD ((g.turn + 1 + k) % g.players.length) default).folded = false ∧
      ∀ k' < k,
        (g.players.getD ((g.turn + 1 + k') % g.players.length) default).folded = true := by
  obtain ⟨p, hmem, hpf⟩ := h
  have hlen : 0 < g.players.length := List.length_pos.mpr (by
    intro he
    rw [he] at hmem
    simp at hmem)
  have hstartlt : (g.turn + 1) % g.players.length < g.players.length :=
    Nat.mod_lt _ hlen
  rw [nextTurn, if_neg (by omega)]
  cases hscan : nextTurnScan g.players ((g.turn + 1) % g.players.length)
      g.players.length with
  | none =>
    exfalso
    have hall := nextTurnScan_none g.players g.players.length _ hstartlt hscan
    obtain ⟨m, hm, hgm⟩ := List.getElem_of_mem hmem
    set start := (g.turn + 1) % g.players.length with hst
    set k := if start ≤ m then m - start else g.players.length - start + m with hkdef
    have hk : k < g.players.length := by
      rw [hkdef]; split <;> omega
    have hidx : (start + k) % g.players.length = m := by
      rw [hkdef]
      split
      · rw [show start + (m - start) = m by omega, Nat.mod_eq_of_lt hm]
      · rw [show start + (g.players.length - start + m) = g.players.length + m by omega,
          Nat.add_mod_left, Nat.mod_eq_of_lt hm]
    have hfold := hall k hk
    rw [hidx, List.getD_eq_getElem _ _ hm, hgm] at hfold
    rw [hfold] at hpf
    exact absurd hpf (by simp)
  | some j =>
    obtain ⟨k, hk, hj, hnf, hall⟩ :=
      nextTurnScan_some g.players g.players.length _ j hstartlt hscan
    refine ⟨k, hk, ?_, ?_, ?_⟩
    · rw [hj, Nat.mod_add_mod]
    · rw [← Nat.mod_add_mod, ← hj]
      exact hnf
    · intro k' hk'
      have h2 := hall k' hk'
      rw [Nat.mod_add_mod] at h2
      exact h2

/-- Witness for `nextTurn_finds_next_active`: two seats, seat 0 folded,
seat 1 active, turn at 0 — the scan completes and finds seat 1 after
skipping no seats (k = 0). -/
theorem nextTurn_finds_next_active_witness :
    ∃ k < 2,
      nextTurn ⟨[⟨"a", 0, 0, [], 0, true⟩, ⟨"b", 0, 0, [], 0, false⟩],
        [], [], 0, 0, 0⟩ = some ((0 + 1 + k) % 2) ∧
      (([⟨"a", 0, 0, [], 0, true⟩, ⟨"b", 0, 0, [], 0, false⟩] :
          List Player).getD ((0 + 1 + k) % 2) default).folded = false ∧
      ∀ k' < k,
        (([⟨"a", 0, 0, [], 0, true⟩, ⟨"b", 0, 0, [], 0, false⟩] :
            List Player).getD ((0 + 1 + k') % 2) default).folded = true :=
  nextTurn_finds_next_active
    ⟨[⟨"a", 0, 0, [], 0, true⟩, ⟨"b", 0, 0, [], 0, false⟩], [], [], 0, 0, 0⟩
    ⟨⟨"b", 0, 0, [], 0, false⟩, by decide, rfl⟩

lemma drawStep_lengths (st : List Card × List Card) (index : Int) :
    (drawStep st index).1.length = st.1.length ∧
    (drawStep st index).2.length = st.2.length := by
  unfold drawStep
  split
  · constructor
    · simp
    · simp only [List.length_drop, List.length_append, List.length_cons, List.length_nil]
      omega
  · exact ⟨rfl, rfl⟩

lemma drawFold_lengths (indices : List Int) (st : List Card × List Card) :
    (indices.foldl drawStep st).1.length = st.1.length ∧
    (indices.foldl drawStep st).2.length = st.2.length := by
  induction indices generalizing st with
  | nil => exact ⟨rfl, rfl⟩
  | cons idx rest ih =>
    simp only [List.foldl_cons]
    obtain ⟨h1, h2⟩ := drawStep_lengths st idx
    obtain ⟨h1', h2'⟩ := ih (drawStep st idx)
    exact ⟨h1'.trans h1, h2'.trans h2⟩

/-- **C10** (draw/discard totality).  During the draw phase, `DrawCards`
never fails: the whole index loop preserves both the hand length and the deck
length; an index outside `[0, len(hand))` is silently skipped (the state is
untouched); an in-range index first appends the discarded card to the back of
the deck and then overwrites that hand slot with the front card of the
extended deck, dropping it from the deck. -/
theorem drawCards_total_spec (hand deck : List Card) (indices : List Int) :
    ((drawCards true hand deck indices).1.length = hand.length ∧
     (drawCards true hand deck indices).2.length = deck.length) ∧
    (∀ index : Int, index < 0 ∨ (hand.length : Int) ≤ index →
      drawStep (hand, deck) index = (hand, deck)) ∧
    (∀ index : Int, 0 ≤ index → index < (hand.length : Int) →
      drawStep (hand, deck) index
        = (hand.set index.toNat ((deck ++ [hand.getD index.toNat default]).getD 0 default),
           (deck ++ [hand.getD index.toNat default]).drop 1)) := by
  refine ⟨?_, ?_, ?_⟩
  · simpa [drawCards] using drawFold_lengths indices (hand, deck)
  · intro index hout
    simp only [drawStep]
    rw [if_neg (by omega)]
  · intro index h0 hlt
    simp only [drawStep]
    rw [if_pos ⟨h0, hlt⟩]

/-- Witness for `drawCards_total_spec`: a five-card hand and a two-card deck;
index 7 is out of range and skipped, index 0 is in range and performs the
discard-then-draw exchange, and a full `drawCards` call preserves both
lengths. -/
theorem drawCards_total_spec_witness :
    ((drawCards true
        [⟨"Hearts", "2"⟩, ⟨"Hearts", "3"⟩, ⟨"Hearts", "4"⟩, ⟨"Hearts", "5"⟩,
         ⟨"Hearts", "6"⟩]
        [⟨"Spades", "K"⟩, ⟨"Spades", "A"⟩] [0, 7, -1]).1.length = 5 ∧
     (drawCards true
        [⟨"Hearts", "2"⟩, ⟨"Hearts", "3"⟩, ⟨"Hearts", "4"⟩, ⟨"Hearts", "5"⟩,
         ⟨"Hearts", "6"⟩]
        [⟨"Spades", "K"⟩, ⟨"Spades", "A"⟩] [0, 7, -1]).2.length = 2) ∧
    drawStep
      ([⟨"Hearts", "2"⟩, ⟨"Hearts", "3"⟩, ⟨"Hearts", "4"⟩, ⟨"Hearts", "5"⟩,
        ⟨"Hearts", "6"⟩],
       [⟨"Spades", "K"⟩, ⟨"Spades", "A"⟩]) 7
      = ([⟨"Hearts", "2"⟩, ⟨"Hearts", "3"⟩, ⟨"Hearts", "4"⟩, ⟨"Hearts", "5"⟩,
          ⟨"Hearts", "6"⟩],
         [⟨"Spades", "K"⟩, ⟨"Spades", "A"⟩]) ∧
    drawStep
      ([⟨"Hearts", "2"⟩, ⟨"Hearts", "3"⟩, ⟨"Hearts", "4"⟩, ⟨"Hearts", "5"⟩,
        ⟨"Hearts", "6"⟩],
       [⟨"Spades", "K"⟩, ⟨"Spades", "A"⟩]) 0
      = ([⟨"Spades", "K"⟩, ⟨"Hearts", "3"⟩, ⟨"Hearts", "4"⟩, ⟨"Hearts", "5"⟩,
          ⟨"Hearts", "6"⟩],
         [⟨"Spades", "A"⟩, ⟨"Hearts", "2"⟩]) := by
  have h := drawCards_total_spec
    [⟨"Hearts", "2"⟩, ⟨"Hearts", "3"⟩, ⟨"Hearts", "4"⟩, ⟨"Hearts", "5"⟩, ⟨"Hearts", "6"⟩]
    [⟨"Spades", "K"⟩, ⟨"Spades", "A"⟩] [0, 7, -1]
  exact ⟨h.1, h.2.1 7 (by right; decide), h.2.2 0 (by decide) (by decide)⟩

end PokerBot
